import Mathlib

/-!
Verification development for the ulisp compiler backend subsystem.

The Rust sources are shallowly embedded as total Lean functions:

* `Expression` mirrors `parser::Expression` (the `Float` payload is never
  inspected by any backend — both backends hit `unimplemented!()` before
  reading it — so the constructor carries no payload here).
* Rust `HashMap<String, String>` values are modelled as association lists
  accessed only through `lookupA` (= `HashMap::get`), `mapInsert`
  (= `HashMap::insert`, replace-or-add) and `List.length` (= `HashMap::len`),
  the only operations the sources use; iteration order is never observed.
* The append-only output buffer (`String` in Rust, written exclusively via
  `emit`) is modelled as the list of appended chunks, one per `emit` call;
  the final text is the concatenation of the list.
* Rust panics (`panic!`, `unimplemented!`, `unwrap()` on `None`, slice index
  out of bounds) abort the process; they are modelled as `Except.error`
  carrying the error kind and the buffer contents at the moment of the panic.
* The mutual recursion of the compile functions is bounded by an explicit
  `fuel` parameter modelling the finite call stack (spec §5 classifies stack
  exhaustion as a resource failure); every top-level `compile` supplies fuel
  that is generously larger than the number of frames any walk of the AST
  can need, so the embedded functions agree with the Rust control flow.
* The dispatch tables built in `X86::new` / `LLVM::new` store function
  pointers; they are embedded as association lists from operator name to a
  closed tag variant, dispatched in `compile_call`.
-/

/-- AST produced by the front end (`parser::Expression`). -/
inductive Expression where
  | list (items : List Expression)
  | symbol (name : String)
  | integer (value : Int)
  | float
  | boolean (b : Bool)

/-- Association-list model of `HashMap::get` (first matching key). -/
def lookupA {α : Type} : List (String × α) → String → Option α
  | [], _ => none
  | (k2, v) :: rest, k => if k2 = k then some v else lookupA rest k

/-- Association-list model of `HashMap::insert`: replace the binding of an
existing key, otherwise add a new one. -/
def mapInsert {α : Type} : List (String × α) → String → α → List (String × α)
  | [], k, v => [(k, v)]
  | (k2, v2) :: rest, k, v =>
    if k2 = k then (k, v) :: rest else (k2, v2) :: mapInsert rest k v

/-- Panic kinds of the compiler core (spec §7 error taxonomy). -/
inductive Err where
  | undefinedVariable (name : String)
  | undefinedFunction (name : String)
  | headNotSymbol
  | notAList
  | defNameNotSymbol
  | defParamsNotList
  | defBodyNotList
  | paramNotSymbol
  | unsupportedLiteral
  | unwrapNone
  | indexOutOfBounds
  | stackOverflow
deriving DecidableEq

/-- Output buffer: the list of chunks appended by `emit`, in order. -/
abbrev Buf := List String

/-- Indentation string of `depth` tab characters. -/
def tabs : Nat → String
  | 0 => ""
  | n + 1 => tabs n ++ "\t"

/-- Model of `Backend::emit`: append one `indent ++ code ++ "\n"` chunk. -/
def emit (buf : Buf) (depth : Nat) (code : String) : Buf :=
  buf ++ [tabs depth ++ code ++ "\n"]

/-- Decimal digit list of a natural number (most significant first), with a
structural fuel so the kernel can evaluate it; `fuel > n` is always enough.
This is the semantics of Rust `format!("{}", n)` for a non-negative value. -/
def natToDigits : Nat → Nat → List Char
  | 0, _ => []
  | fuel + 1, n =>
    if n < 10 then [Nat.digitChar n]
    else natToDigits fuel (n / 10) ++ [Nat.digitChar (n % 10)]

/-- Decimal string of a natural number, as Rust `Display` renders `usize`. -/
def natRepr (n : Nat) : String := String.mk (natToDigits (n + 1) n)

/-- Decimal string of an `i32` value, as Rust `Display` renders it. -/
def intRepr (i : Int) : String :=
  match i with
  | .ofNat n => natRepr n
  | .negSucc n => "-" ++ natRepr (n + 1)

/-- Model of Rust `str::replace("-", "_")` for the single-character pattern:
a character-wise map. -/
def replaceDash (s : String) : String :=
  String.mk (s.data.map (fun c => if c = '-' then '_' else c))

mutual

/-- Node count of an expression tree. -/
def Expression.esize : Expression → Nat
  | .list items => 1 + esizeList items
  | .symbol _ => 1
  | .integer _ => 1
  | .float => 1
  | .boolean _ => 1

/-- Node count of a list of expression trees. -/
def esizeList : List Expression → Nat
  | [] => 0
  | e :: rest => Expression.esize e + esizeList rest

end

/-- Stack-depth budget passed by the top-level `compile` wrappers; any bound
that dominates the number of mutual-recursion frames a walk of `ast` can
open is adequate, and `8 * esize ast + 64` is far more than that. -/
def compileFuel (ast : Expression) : Nat := 8 * Expression.esize ast + 64

namespace X86

/-- Scope of the x86 backend (`x86::Scope = HashMap<String, String>`). -/
abbrev Scope := List (String × String)

/-- Compile result: panics carry the buffer at the moment of the panic. -/
abbrev Res := Except (Err × Buf) (Buf × Scope)

def PARAM_REGISTERS : List String := ["rdi", "rsi", "rdx"]

def LOCAL_REGISTERS : List String := ["rbx", "rbp", "r12"]

/-- Tags for the function pointers stored in `X86::primitive_functions`. -/
inductive Prim where
  | pdef
  | pmodule
deriving DecidableEq

/-- The table built in `X86::new`: only `def` and `module`. -/
def primitive_functions : List (String × Prim) :=
  [("def", Prim.pdef), ("module", Prim.pmodule)]

/-- The table built in `X86::new`: `+` is translated to the label `plus`. -/
def builtin_functions : List (String × String) := [("+", "plus")]

/-- Model of `x86::split_function`. -/
def split_function : Expression → Except Err (String × List Expression)
  | .list vec =>
    match vec with
    | [] => .error .indexOutOfBounds
    | .symbol name :: rest => .ok (name, rest)
    | _ :: _ => .error .headNotSymbol
  | _ => .error .notAList

/-- Model of `x86::split_def_expression`, including the `main` rename. -/
def split_def_expression (args : List Expression) :
    Except Err (String × List Expression × Expression) :=
  match (args[0]? : Option Expression) with
  | none => .error .indexOutOfBounds
  | some (.symbol name0) =>
    let name1 := replaceDash name0
    let name := if name1 = "main" then "program_main" else name1
    match (args[1]? : Option Expression) with
    | none => .error .indexOutOfBounds
    | some (.list ps) =>
      match (args[2]? : Option Expression) with
      | none => .error .indexOutOfBounds
      | some (.list body) => .ok (name, ps, .list body)
      | some _ => .error .defBodyNotList
    | some _ => .error .defParamsNotList
  | some _ => .error .defNameNotSymbol

/-- Loop `for (i, _) in args.iter().enumerate() { push PARAM_REGISTERS[i] }`
for `count` arguments starting at index `i`. -/
def push_param_registers : Nat → Nat → Buf → Except (Err × Buf) Buf
  | 0, _, buf => .ok buf
  | count + 1, i, buf =>
    match PARAM_REGISTERS[i]? with
    | none => .error (.indexOutOfBounds, buf)
    | some r => push_param_registers count (i + 1) (emit buf 1 ("push " ++ r))

/-- Loop popping `PARAM_REGISTERS[len-1], …, PARAM_REGISTERS[0]`. -/
def pop_param_registers : Nat → Buf → Except (Err × Buf) Buf
  | 0, buf => .ok buf
  | n + 1, buf =>
    match PARAM_REGISTERS[n]? with
    | none => .error (.indexOutOfBounds, buf)
    | some r => pop_param_registers n (emit buf 1 ("pop " ++ r))

/-- Loop popping `LOCAL_REGISTERS[len-1], …, LOCAL_REGISTERS[0]` at the end
of `compile_define`. -/
def pop_local_registers : Nat → Buf → Except (Err × Buf) Buf
  | 0, buf => .ok buf
  | n + 1, buf =>
    match LOCAL_REGISTERS[n]? with
    | none => .error (.indexOutOfBounds, buf)
    | some l => pop_local_registers n (emit buf 1 ("pop " ++ l))

/-- Parameter loop of `X86::compile_define`: push the local register, copy
the argument register into it, and bind the parameter name to the
argument register in the child scope. -/
def compile_def_params :
    List Expression → Nat → Scope → Buf → Except (Err × Buf) (Buf × Scope)
  | [], _, child, buf => .ok (buf, child)
  | p :: rest, i, child, buf =>
    match p with
    | .symbol name =>
      match PARAM_REGISTERS[i]? with
      | none => .error (.indexOutOfBounds, buf)
      | some reg =>
        match LOCAL_REGISTERS[i]? with
        | none => .error (.indexOutOfBounds, buf)
        | some loc =>
          let buf1 := emit buf 1 ("push " ++ loc)
          let buf2 := emit buf1 1 ("mov " ++ loc ++ ", " ++ reg)
          compile_def_params rest (i + 1) (mapInsert child name reg) buf2
    | _ => .error (.paramNotSymbol, buf)

mutual

/-- Model of `X86::compile_expression`. -/
def compile_expression : Nat → Expression → Option String → Scope → Buf → Res
  | 0, _, _, _, buf => .error (.stackOverflow, buf)
  | fuel + 1, arg, destination, scope, buf =>
    match arg with
    | .list vec =>
      match split_function (.list vec) with
      | .error e => .error (e, buf)
      | .ok (function, args) => compile_call fuel function args destination scope buf
    | .symbol sym =>
      match lookupA scope sym with
      | some name =>
        match destination with
        | some d => .ok (emit buf 1 ("mov " ++ d ++ ", " ++ name), scope)
        | none => .error (.unwrapNone, buf)
      | none => .error (.undefinedVariable sym, buf)
    | .integer int =>
      match destination with
      | some d => .ok (emit buf 1 ("mov " ++ d ++ ", " ++ intRepr int), scope)
      | none => .error (.unwrapNone, buf)
    | .float => .error (.unsupportedLiteral, buf)
    | .boolean _ => .error (.unsupportedLiteral, buf)

/-- Model of `X86::compile_call`. -/
def compile_call : Nat → String → List Expression → Option String → Scope → Buf → Res
  | 0, _, _, _, _, buf => .error (.stackOverflow, buf)
  | fuel + 1, function, args, destination, scope, buf =>
    match lookupA primitive_functions function with
    | some Prim.pdef => compile_define fuel args destination scope buf
    | some Prim.pmodule => compile_module fuel args destination scope buf
    | none =>
      match push_param_registers args.length 0 buf with
      | .error e => .error e
      | .ok buf1 =>
        match compile_args fuel args 0 scope buf1 with
        | .error e => .error e
        | .ok (buf2, scope2) =>
          let callee := (lookupA builtin_functions function).getD function
          let buf3 := emit buf2 1 ("call " ++ callee)
          match pop_param_registers args.length buf3 with
          | .error e => .error e
          | .ok buf4 =>
            match destination with
            | some d => .ok (emit buf4 1 ("mov " ++ d ++ ", rax"), scope2)
            | none => .ok (buf4, scope2)

/-- Argument loop of `X86::compile_call`: lower argument `i` into
`PARAM_REGISTERS[i]`. -/
def compile_args : Nat → List Expression → Nat → Scope → Buf → Res
  | 0, _, _, _, buf => .error (.stackOverflow, buf)
  | _ + 1, [], _, scope, buf => .ok (buf, scope)
  | fuel + 1, arg :: rest, i, scope, buf =>
    match PARAM_REGISTERS[i]? with
    | none => .error (.indexOutOfBounds, buf)
    | some r =>
      match compile_expression fuel arg (some r) scope buf with
      | .error e => .error e
      | .ok (buf2, scope2) => compile_args fuel rest (i + 1) scope2 buf2

/-- Model of `X86::compile_define`; note that the enclosing `scope` is
returned untouched: this backend never registers the function name. -/
def compile_define : Nat → List Expression → Option String → Scope → Buf → Res
  | 0, _, _, _, buf => .error (.stackOverflow, buf)
  | fuel + 1, args, _destination, scope, buf =>
    match split_def_expression args with
    | .error e => .error (e, buf)
    | .ok (name, params, body) =>
      let buf1 := emit buf 0 (name ++ ":")
      match compile_def_params params 0 scope buf1 with
      | .error e => .error e
      | .ok (buf2, child) =>
        match compile_expression fuel body (some ("rax")) child buf2 with
        | .error e => .error e
        | .ok (buf3, _child2) =>
          match pop_local_registers params.length buf3 with
          | .error e => .error e
          | .ok buf4 => .ok (emit buf4 1 ("ret\n"), scope)

/-- Model of `X86::compile_module`. -/
def compile_module : Nat → List Expression → Option String → Scope → Buf → Res
  | 0, _, _, _, buf => .error (.stackOverflow, buf)
  | fuel + 1, args, destination, scope, buf =>
    match compile_module_items fuel args scope buf with
    | .error e => .error e
    | .ok (buf1, scope1) =>
      match destination with
      | some d =>
        if d = "rax" then .ok (buf1, scope1)
        else .ok (emit buf1 1 ("mov " ++ d ++ ", rax"), scope1)
      | none => .ok (buf1, scope1)

/-- Item loop of `X86::compile_module`: each item lowers into `rax`. -/
def compile_module_items : Nat → List Expression → Scope → Buf → Res
  | 0, _, _, buf => .error (.stackOverflow, buf)
  | _ + 1, [], scope, buf => .ok (buf, scope)
  | fuel + 1, e :: rest, scope, buf =>
    match compile_expression fuel e (some ("rax")) scope buf with
    | .error err => .error err
    | .ok (buf1, scope1) => compile_module_items fuel rest scope1 buf1

end

/-- Lines produced by `X86::emit_prefix`. -/
def headerLines : Buf :=
  let b := emit [] 0 ("; Generated with ulisp")
  let b := emit b 0 (";")
  let b := emit b 0 ("; To compile run the following:")
  let b := emit b 0 ("; $ nasm -f elf64 program.asm")
  let b := emit b 0 ("; $ gcc -o program program.o")
  let b := emit b 0 ("")
  let b := emit b 1 ("global main\n")
  let b := emit b 1 ("SECTION .text\n")
  let b := emit b 0 ("plus:")
  let b := emit b 1 ("add rdi, rsi")
  let b := emit b 1 ("mov rax, rdi")
  emit b 1 ("ret\n")

/-- Value of `cfg!(darwin)` for the Linux build the sources target. -/
def cfgDarwin : Bool := false

/-- The `exit` syscall number chosen in `X86::emit_postfix`. -/
def exitSyscall : String := if cfgDarwin then "0x2000001" else "60"

/-- Lines produced by `X86::emit_postfix`: the entry scaffold `main` that
calls `program_main` and turns `rax` into the process exit status. -/
def scaffoldLines : Buf :=
  let b := emit [] 0 ("main:")
  let b := emit b 1 ("call program_main")
  let b := emit b 1 ("mov rdi, rax")
  let b := emit b 1 ("mov rax, " ++ exitSyscall)
  emit b 1 ("syscall")

/-- Model of `X86::compile`: prefix, lowering from a fresh empty scope with
no destination, postfix. Appending `scaffoldLines` is exactly the effect of
the `emit` calls of `emit_postfix` on the accumulated buffer. -/
def compile (ast : Expression) : Except (Err × Buf) Buf :=
  match compile_expression (compileFuel ast) ast none [] headerLines with
  | .error e => .error e
  | .ok (buf, _scope) => .ok (buf ++ scaffoldLines)

end X86

namespace LLVM

/-- Scope of the LLVM backend (`llvm::scope::Scope`). -/
structure Scope where
  locals : List (String × String)

/-- Compile result of the LLVM backend. -/
abbrev Res := Except (Err × Buf) (Buf × Scope)

/-- Model of `llvm::scope::safe_name`. -/
def safe_name (symbol_name : String) : String :=
  if symbol_name = "-" then symbol_name else replaceDash symbol_name

/-- Model of `Scope::new`. -/
def Scope.new : Scope := ⟨[]⟩

/-- The `while locals.get(&copy).is_some()` loop of `Scope::register`,
trying `safe_name local`, then `local ++ "1"`, `local ++ "2"`, … . The
candidates are pairwise distinct strings, so `locals.length + 1` probes
always reach one that is not a key; the fuel only makes the loop total. -/
def registerLoop (locals : List (String × String)) (lcl : String) :
    String → Nat → Nat → String
  | copy, _, 0 => copy
  | copy, n, fuel + 1 =>
    if (lookupA locals copy).isSome then
      registerLoop locals lcl (lcl ++ natRepr n) (n + 1) fuel
    else copy

/-- Model of `Scope::register` (`lcl` is the source parameter `local`). -/
def Scope.register (s : Scope) (lcl : String) : String × Scope :=
  let copy := registerLoop s.locals lcl (safe_name lcl) 1 (s.locals.length + 1)
  (copy, ⟨mapInsert s.locals lcl copy⟩)

/-- Model of `Scope::symbol` (`llvm/mod.rs` call sites pass no prefix, so
the default prefix `sym` applies). -/
def Scope.symbol (s : Scope) (pre : Option String) : String × Scope :=
  let nth := s.locals.length + 1
  let p := pre.getD ("sym")
  s.register (p ++ natRepr nth)

/-- Model of `Scope::get`. -/
def Scope.get (s : Scope) (lcl : String) : Option String :=
  lookupA s.locals lcl

/-- Model of `Scope::copy` (`self.clone()`). -/
def Scope.copy (s : Scope) : Scope := s

/-- Tags for the function pointers stored in `LLVM::primitive_functions`;
`poperation op` stands for the closure `LLVM::compile_operation(op)`. -/
inductive Prim where
  | pdef
  | pmodule
  | poperation (op : String)
deriving DecidableEq

/-- The table built in `LLVM::new`: all five primitive operators. -/
def primitive_functions : List (String × Prim) :=
  [("def", Prim.pdef), ("module", Prim.pmodule),
   ("+", Prim.poperation ("add")), ("-", Prim.poperation ("sub")),
   ("*", Prim.poperation ("mul"))]

/-- Model of `llvm::split_function` (this one sanitizes the operator). -/
def split_function : Expression → Except Err (String × List Expression)
  | .list vec =>
    match vec with
    | [] => .error .indexOutOfBounds
    | .symbol name :: rest => .ok (safe_name name, rest)
    | _ :: _ => .error .headNotSymbol
  | _ => .error .notAList

/-- Model of `llvm::split_def_expression`: no `main` special case, the
name is only passed through `safe_name`. -/
def split_def_expression (args : List Expression) :
    Except Err (String × List Expression × Expression) :=
  match (args[0]? : Option Expression) with
  | none => .error .indexOutOfBounds
  | some (.symbol name0) =>
    let name := safe_name name0
    match (args[1]? : Option Expression) with
    | none => .error .indexOutOfBounds
    | some (.list ps) =>
      match (args[2]? : Option Expression) with
      | none => .error .indexOutOfBounds
      | some (.list body) => .ok (name, ps, .list body)
      | some _ => .error .defBodyNotList
    | some _ => .error .defParamsNotList
  | some _ => .error .defNameNotSymbol

/-- Parameter loop of `LLVM::compile_define`: register each parameter in
the child scope, collecting the registered names in order. -/
def register_params : List Expression → Scope → Except Err (List String × Scope)
  | [], child => .ok ([], child)
  | p :: rest, child =>
    match p with
    | .symbol param_name =>
      let (r, child2) := child.register param_name
      match register_params rest child2 with
      | .error e => .error e
      | .ok (rs, child3) => .ok (r :: rs, child3)
    | _ => .error .paramNotSymbol

/-- The fold building the typed parameter list of a `define` header. -/
def join_params (rs : List String) : String :=
  rs.foldl (fun acc s => if acc = "" then "i32 %" ++ s else acc ++ ", i32 %" ++ s) ""

/-- The fold comma-joining already typed call operands. -/
def join_args (l : List String) : String :=
  l.foldl (fun acc s => if acc = "" then s else acc ++ ", " ++ s) ""

mutual

/-- Model of `LLVM::compile_expression`. -/
def compile_expression : Nat → Expression → Option String → Scope → Buf → Res
  | 0, _, _, _, buf => .error (.stackOverflow, buf)
  | fuel + 1, arg, destination, scope, buf =>
    match arg with
    | .list vec =>
      match split_function (.list vec) with
      | .error e => .error (e, buf)
      | .ok (function, args) => compile_call fuel function args destination scope buf
    | .symbol sym =>
      match scope.get sym with
      | some name =>
        match destination with
        | some d => .ok (emit buf 1 ("%" ++ d ++ " = add i32 %" ++ name ++ ", 0"), scope)
        | none => .error (.unwrapNone, buf)
      | none => .error (.undefinedVariable sym, buf)
    | .integer int =>
      match destination with
      | some d => .ok (emit buf 1 ("%" ++ d ++ " = add i32 " ++ intRepr int ++ ", 0"), scope)
      | none => .error (.unwrapNone, buf)
    | .float => .error (.unsupportedLiteral, buf)
    | .boolean _ => .error (.unsupportedLiteral, buf)

/-- Model of `LLVM::compile_call`: primitives dispatch on the table with the
raw argument expressions; otherwise the callee must resolve in scope before
any operand is lowered or any instruction emitted. -/
def compile_call : Nat → String → List Expression → Option String → Scope → Buf → Res
  | 0, _, _, _, _, buf => .error (.stackOverflow, buf)
  | fuel + 1, function, args, destination, scope, buf =>
    match lookupA primitive_functions function with
    | some Prim.pdef => compile_define fuel args destination scope buf
    | some Prim.pmodule => compile_module fuel args destination scope buf
    | some (Prim.poperation op) => compile_operation fuel op args destination scope buf
    | none =>
      match scope.get function with
      | none => .error (.undefinedFunction function, buf)
      | some valid_function =>
        match compile_call_args fuel args scope buf with
        | .error e => .error e
        | .ok (syms, buf1, scope1) =>
          match destination with
          | none => .error (.unwrapNone, buf1)
          | some d =>
            .ok (emit buf1 1 ("%" ++ d ++ " = call i32 @" ++ valid_function ++
              "(" ++ join_args syms ++ ")"), scope1)

/-- Argument map of `LLVM::compile_call`: each argument is lowered into a
fresh symbol, producing the typed operand text `i32 %sym`. -/
def compile_call_args : Nat → List Expression → Scope → Buf →
    Except (Err × Buf) (List String × Buf × Scope)
  | 0, _, _, buf => .error (.stackOverflow, buf)
  | _ + 1, [], scope, buf => .ok ([], buf, scope)
  | fuel + 1, arg :: rest, scope, buf =>
    let (sym, scope1) := scope.symbol none
    match compile_expression fuel arg (some sym) scope1 buf with
    | .error e => .error e
    | .ok (buf1, scope2) =>
      match compile_call_args fuel rest scope2 buf1 with
      | .error e => .error e
      | .ok (syms, buf2, scope3) => .ok (("i32 %" ++ sym) :: syms, buf2, scope3)

/-- Model of `LLVM::compile_define`: the function name is registered in the
enclosing scope, everything else happens in a forked child scope, and the
enclosing scope as of that registration is what the caller keeps. -/
def compile_define : Nat → List Expression → Option String → Scope → Buf → Res
  | 0, _, _, _, buf => .error (.stackOverflow, buf)
  | fuel + 1, args, _destination, scope, buf =>
    match split_def_expression args with
    | .error e => .error (e, buf)
    | .ok (name, params, body) =>
      let (safeN, scope1) := scope.register name
      let child := scope1.copy
      match register_params params child with
      | .error e => .error (e, buf)
      | .ok (rs, child1) =>
        let buf1 := emit buf 0 ("define i32 @" ++ safeN ++ "(" ++ join_params rs ++ ") \x7b")
        let (ret, child2) := child1.symbol none
        match compile_expression fuel body (some ret) child2 buf1 with
        | .error e => .error e
        | .ok (buf2, _child3) =>
          let buf3 := emit buf2 1 ("ret i32 %" ++ ret)
          .ok (emit buf3 0 ("\x7d\n"), scope1)

/-- Model of `LLVM::compile_module`: lower each item with no destination. -/
def compile_module : Nat → List Expression → Option String → Scope → Buf → Res
  | 0, _, _, _, buf => .error (.stackOverflow, buf)
  | fuel + 1, args, _destination, scope, buf => compile_module_items fuel args scope buf

/-- Item loop of `LLVM::compile_module`. -/
def compile_module_items : Nat → List Expression → Scope → Buf → Res
  | 0, _, _, buf => .error (.stackOverflow, buf)
  | _ + 1, [], scope, buf => .ok (buf, scope)
  | fuel + 1, e :: rest, scope, buf =>
    match compile_expression fuel e none scope buf with
    | .error err => .error err
    | .ok (buf1, scope1) => compile_module_items fuel rest scope1 buf1

/-- Model of the closure returned by `LLVM::compile_operation(op)`. -/
def compile_operation : Nat → String → List Expression → Option String → Scope → Buf → Res
  | 0, _, _, _, _, buf => .error (.stackOverflow, buf)
  | fuel + 1, op, expressions, destination, scope, buf =>
    match (expressions[0]? : Option Expression) with
    | none => .error (.indexOutOfBounds, buf)
    | some exp1 =>
      match (expressions[1]? : Option Expression) with
      | none => .error (.indexOutOfBounds, buf)
      | some exp2 =>
        let (arg1, scope1) := scope.symbol none
        let (arg2, scope2) := scope1.symbol none
        match compile_expression fuel exp1 (some arg1) scope2 buf with
        | .error e => .error e
        | .ok (buf1, scope3) =>
          match compile_expression fuel exp2 (some arg2) scope3 buf1 with
          | .error e => .error e
          | .ok (buf2, scope4) =>
            match destination with
            | none => .error (.unwrapNone, buf2)
            | some d =>
              .ok (emit buf2 1 ("%" ++ d ++ " = " ++ op ++ " i32 %" ++ arg1 ++
                ", %" ++ arg2), scope4)

end

/-- Model of `LLVM::compile`: a fresh scope, one synthesized destination
symbol, then one lowering pass; no postfix scaffold is emitted. -/
def compile (ast : Expression) : Except (Err × Buf) Buf :=
  let s0 := Scope.new
  let (destination, scope) := s0.symbol none
  match compile_expression (compileFuel ast) ast (some destination) scope [] with
  | .error e => .error e
  | .ok (buf, _scope) => .ok buf

end LLVM

/-! Basic facts about the decimal representation and the association maps,
used by the scope-uniqueness and determinism developments below. -/

theorem natToDigits_fuelIrrel :
    ∀ f1 f2 n : Nat, n < f1 → n < f2 → natToDigits f1 n = natToDigits f2 n := by
  intro f1
  induction f1 with
  | zero => intro f2 n h1 _; omega
  | succ f ih =>
    intro f2 n h1 h2
    cases f2 with
    | zero => omega
    | succ f2 =>
      simp only [natToDigits]
      by_cases h10 : n < 10
      · simp [h10]
      · simp only [h10, if_false]
        have hd : n / 10 < f := by omega
        have hd2 : n / 10 < f2 := by omega
        rw [ih f2 (n / 10) hd hd2]

/-- Numeric value of a decimal digit character. -/
def digitVal (c : Char) : Nat := c.toNat - 48

/-- Value of a digit list read back as a number. -/
def digitsVal (l : List Char) : Nat := l.foldl (fun a c => a * 10 + digitVal c) 0

theorem digitVal_digitChar : ∀ d : Nat, d < 10 → digitVal (Nat.digitChar d) = d := by
  decide

theorem digitsVal_foldl (a : Nat) :
    ∀ l : List Char, l.foldl (fun a c => a * 10 + digitVal c) a =
      a * 10 ^ l.length + digitsVal l := by
  intro l
  induction l generalizing a with
  | nil => simp [digitsVal]
  | cons c rest ih =>
    simp only [List.foldl_cons, digitsVal, List.length_cons]
    rw [ih (a * 10 + digitVal c), ih (0 * 10 + digitVal c)]
    ring

theorem digitsVal_append_single (l : List Char) (c : Char) :
    digitsVal (l ++ [c]) = digitsVal l * 10 + digitVal c := by
  simp only [digitsVal, List.foldl_append, List.foldl_cons, List.foldl_nil]

theorem digitsVal_natToDigits : ∀ f n : Nat, n < f → digitsVal (natToDigits f n) = n := by
  intro f
  induction f with
  | zero => intro n h; omega
  | succ f ih =>
    intro n h
    simp only [natToDigits]
    by_cases h10 : n < 10
    · simp only [h10, if_true, digitsVal, List.foldl_cons, List.foldl_nil]
      rw [Nat.zero_mul, Nat.zero_add, digitVal_digitChar n h10]
    · simp only [h10, if_false]
      rw [digitsVal_append_single, ih (n / 10) (by omega),
        digitVal_digitChar (n % 10) (by omega)]
      omega

theorem natRepr_injective {m n : Nat} (h : natRepr m = natRepr n) : m = n := by
  have hd : natToDigits (m + 1) m = natToDigits (n + 1) n := congrArg String.data h
  have hm := digitsVal_natToDigits (m + 1) m (by omega)
  have hn := digitsVal_natToDigits (n + 1) n (by omega)
  rw [← hm, ← hn, hd]

theorem append_natRepr_injective {p : String} {m n : Nat}
    (h : p ++ natRepr m = p ++ natRepr n) : m = n := by
  apply natRepr_injective
  have hd : p.data ++ (natRepr m).data = p.data ++ (natRepr n).data := by
    simpa using congrArg String.data h
  exact String.ext (List.append_cancel_left hd)

theorem digitChar_ne_dash : ∀ k : Nat, Nat.digitChar k ≠ '-' := by
  intro k h
  rcases Nat.lt_or_ge k 16 with hk | hk
  · interval_cases k <;> exact absurd h (by decide)
  · simp only [Nat.digitChar, show k ≠ 0 by omega, show k ≠ 1 by omega,
      show k ≠ 2 by omega, show k ≠ 3 by omega, show k ≠ 4 by omega,
      show k ≠ 5 by omega, show k ≠ 6 by omega, show k ≠ 7 by omega,
      show k ≠ 8 by omega, show k ≠ 9 by omega, show k ≠ 10 by omega,
      show k ≠ 11 by omega, show k ≠ 12 by omega, show k ≠ 13 by omega,
      show k ≠ 14 by omega, show k ≠ 15 by omega, if_false] at h
    exact absurd h (by decide)

theorem natToDigits_no_dash : ∀ f n : Nat, ∀ c ∈ natToDigits f n, c ≠ '-' := by
  intro f
  induction f with
  | zero => intro n c hc; simp [natToDigits] at hc
  | succ f ih =>
    intro n c hc
    simp only [natToDigits] at hc
    by_cases h10 : n < 10
    · simp only [h10, if_true, List.mem_singleton] at hc
      subst hc; exact digitChar_ne_dash n
    · simp only [h10, if_false, List.mem_append, List.mem_singleton] at hc
      rcases hc with hc | hc
      · exact ih (n / 10) c hc
      · subst hc; exact digitChar_ne_dash (n % 10)

theorem lookupA_mapInsert_self {α : Type} (m : List (String × α)) (k : String) (v : α) :
    lookupA (mapInsert m k v) k = some v := by
  induction m with
  | nil => simp [mapInsert, lookupA]
  | cons p rest ih =>
    obtain ⟨k2, v2⟩ := p
    simp only [mapInsert]
    by_cases h : k2 = k
    · simp [h, lookupA]
    · simp [h, lookupA, ih]

theorem lookupA_mapInsert_other {α : Type} (m : List (String × α)) (k k2 : String) (v : α)
    (h : k2 ≠ k) : lookupA (mapInsert m k v) k2 = lookupA m k2 := by
  induction m with
  | nil =>
    simp only [mapInsert, lookupA]
    rw [if_neg (Ne.symm h)]
  | cons p rest ih =>
    obtain ⟨k3, v3⟩ := p
    simp only [mapInsert]
    by_cases h3 : k3 = k
    · subst h3
      simp [lookupA, Ne.symm h]
    · simp only [h3, if_false, lookupA]
      by_cases h4 : k3 = k2
      · simp [h4]
      · simp [h4, ih]

theorem length_mapInsert_new {α : Type} (m : List (String × α)) (k : String) (v : α)
    (h : lookupA m k = none) : (mapInsert m k v).length = m.length + 1 := by
  induction m with
  | nil => simp [mapInsert]
  | cons p rest ih =>
    obtain ⟨k2, v2⟩ := p
    simp only [lookupA] at h
    by_cases h2 : k2 = k
    · simp [h2] at h
    · simp only [h2, if_false] at h
      simp [mapInsert, h2, ih h]

theorem length_mapInsert_mem {α : Type} (m : List (String × α)) (k : String) (v : α)
    (h : (lookupA m k).isSome = true) : (mapInsert m k v).length = m.length := by
  induction m with
  | nil => simp [lookupA] at h
  | cons p rest ih =>
    obtain ⟨k2, v2⟩ := p
    simp only [lookupA] at h
    by_cases h2 : k2 = k
    · simp [mapInsert, h2]
    · simp only [h2, if_false] at h
      simp [mapInsert, h2, ih h]

/-! Scope-lineage sequences for the uniqueness claim: an abstract run of
`Scope::register` / `Scope::symbol` calls on one lineage. -/

/-- One call on a `llvm::scope::Scope` lineage. -/
inductive ScopeOp where
  | reg (name : String)
  | sym

/-- Run a sequence of calls, collecting the returned target names. -/
def runOps : List ScopeOp → LLVM.Scope → List String × LLVM.Scope
  | [], s => ([], s)
  | .reg n :: rest, s =>
    let (r, s1) := s.register n
    let (rs, s2) := runOps rest s1
    (r :: rs, s2)
  | .sym :: rest, s =>
    let (r, s1) := s.symbol none
    let (rs, s2) := runOps rest s1
    (r :: rs, s2)

/-- The explicitly registered source names of a call sequence. -/
def regNames : List ScopeOp → List String
  | [] => []
  | .reg n :: rest => n :: regNames rest
  | .sym :: rest => regNames rest

/-- A source name with no `-` character. -/
def noDashB (s : String) : Bool := s.data.all (fun c => !(c == '-'))

/-- A source name that does not start with the reserved prefix `sym`. -/
def noSymPrefixB (s : String) : Bool := !(List.isPrefixOf ("sym".data) s.data)

/-- Source names that keep `Scope::register` collision-free. -/
def goodName (s : String) : Bool := noDashB s && noSymPrefixB s

/-- Names the run is expected to return, starting from a scope of the given
size: a registered name returns itself, a `symbol` call at size `L` returns
`"sym" ++ natRepr (L + 1)`. -/
def expectedReturns (len : Nat) : List ScopeOp → List String
  | [] => []
  | .reg n :: rest => n :: expectedReturns (len + 1) rest
  | .sym :: rest => ("sym" ++ natRepr (len + 1)) :: expectedReturns (len + 1) rest

theorem replaceDash_eq_self {s : String} (h : noDashB s = true) : replaceDash s = s := by
  obtain ⟨d⟩ := s
  simp only [noDashB, List.all_eq_true] at h
  simp only [replaceDash]
  congr 1
  have : ∀ c ∈ d, (if c = '-' then '_' else c) = c := by
    intro c hc
    have := h c hc
    rw [if_neg (by simpa using this)]
  calc d.map (fun c => if c = '-' then '_' else c) = d.map id := List.map_congr_left this
  _ = d := List.map_id d

theorem safe_name_eq_self {s : String} (h : noDashB s = true) : LLVM.safe_name s = s := by
  unfold LLVM.safe_name
  split
  · rfl
  · exact replaceDash_eq_self h

theorem isPrefixOf_append (l r : List Char) : l.isPrefixOf (l ++ r) = true := by
  induction l with
  | nil => simp [List.isPrefixOf]
  | cons a rest ih => simp [List.isPrefixOf, ih]

theorem ne_sym_append {n : String} (h : noSymPrefixB n = true) (t : String) :
    n ≠ "sym" ++ t := by
  intro he
  rw [he] at h
  simp only [noSymPrefixB, String.data_append, Bool.not_eq_true'] at h
  rw [isPrefixOf_append] at h
  exact absurd h (by decide)

theorem noDashB_sym_natRepr (m : Nat) : noDashB ("sym" ++ natRepr m) = true := by
  simp only [noDashB, String.data_append, List.all_append, Bool.and_eq_true,
    List.all_eq_true]
  constructor
  · decide
  · intro c hc
    simp only [Bool.not_eq_true']
    have := natToDigits_no_dash (m + 1) m c hc
    simpa using this

theorem register_fresh (s : LLVM.Scope) (n : String)
    (hfree : lookupA s.locals n = none) (hgood : noDashB n = true) :
    s.register n = (n, ⟨mapInsert s.locals n n⟩) := by
  unfold LLVM.Scope.register
  rw [safe_name_eq_self hgood]
  simp only [LLVM.registerLoop, hfree, Option.isSome_none, Bool.false_eq_true, if_false]

/-- Invariant tying a scope's key set to the registrations that built it:
every key is either an explicitly registered name or a `sym`-pool name whose
index is bounded by the scope size. -/
def ScopeInv (s : LLVM.Scope) (used : List String) : Prop :=
  ∀ k, (lookupA s.locals k).isSome = true →
    k ∈ used ∨ ∃ m, 1 ≤ m ∧ m ≤ s.locals.length ∧ k = "sym" ++ natRepr m

theorem runOps_returns : ∀ (ops : List ScopeOp) (s : LLVM.Scope) (used : List String),
    ScopeInv s used →
    (∀ n ∈ used, goodName n = true) →
    (∀ n ∈ regNames ops, goodName n = true) →
    (regNames ops).Nodup →
    (∀ n ∈ regNames ops, n ∉ used) →
    (runOps ops s).1 = expectedReturns s.locals.length ops := by
  intro ops
  induction ops with
  | nil => intro s used _ _ _ _ _; rfl
  | cons op rest ih =>
    intro s used hinv husedgood hgood hnodup hdisj
    cases op with
    | reg n =>
      have hngood : goodName n = true := hgood n (by simp [regNames])
      have hfree : lookupA s.locals n = none := by
        cases hlook : lookupA s.locals n with
        | none => rfl
        | some v =>
          exfalso
          rcases hinv n (by simp [hlook]) with hmem | ⟨m, _, _, hform⟩
          · exact hdisj n (by simp [regNames]) hmem
          · have : noSymPrefixB n = true := by
              have := hngood
              simp only [goodName, Bool.and_eq_true] at this
              exact this.2
            exact ne_sym_append this (natRepr m) hform
      have hreg := register_fresh s n hfree (by
        have := hngood
        simp only [goodName, Bool.and_eq_true] at this
        exact this.1)
      have hlen : (mapInsert s.locals n n).length = s.locals.length + 1 :=
        length_mapInsert_new s.locals n n hfree
      have hinv1 : ScopeInv ⟨mapInsert s.locals n n⟩ (n :: used) := by
        intro k hk
        by_cases hkn : k = n
        · left; simp [hkn]
        · rw [lookupA_mapInsert_other s.locals n k n hkn] at hk
          rcases hinv k hk with hmem | ⟨m, h1, h2, hform⟩
          · left; simp [hmem]
          · right; exact ⟨m, h1, by simp only [hlen]; omega, hform⟩
      have hrest := ih ⟨mapInsert s.locals n n⟩ (n :: used) hinv1
        (by
          intro x hx
          rcases List.mem_cons.mp hx with hx | hx
          · rw [hx]; exact hngood
          · exact husedgood x hx)
        (by intro x hx; exact hgood x (by simp [regNames, hx]))
        (by
          have := hnodup
          simp only [regNames, List.nodup_cons] at this
          exact this.2)
        (by
          intro x hx hmem
          rcases List.mem_cons.mp hmem with hxy | hxy
          · have := hnodup
            simp only [regNames, List.nodup_cons] at this
            exact this.1 (hxy ▸ hx)
          · exact hdisj x (by simp [regNames, hx]) hxy)
      simp only [runOps, hreg, expectedReturns]
      rw [hrest, hlen]
    | sym =>
      set name := "sym" ++ natRepr (s.locals.length + 1) with hname
      have hnamedash : noDashB name = true := noDashB_sym_natRepr _
      have hfree : lookupA s.locals name = none := by
        cases hlook : lookupA s.locals name with
        | none => rfl
        | some v =>
          exfalso
          rcases hinv name (by simp [hlook]) with hmem | ⟨m, h1, h2, hform⟩
          · have hng : goodName name = true := husedgood name hmem
            simp only [goodName, Bool.and_eq_true] at hng
            exact ne_sym_append hng.2 (natRepr (s.locals.length + 1)) hname
          · have := append_natRepr_injective (hname ▸ hform)
            omega
      have hreg := register_fresh s name hfree hnamedash
      have hsym : s.symbol none = (name, ⟨mapInsert s.locals name name⟩) := by
        unfold LLVM.Scope.symbol
        simp only [Option.getD]
        exact hreg
      have hlen : (mapInsert s.locals name name).length = s.locals.length + 1 :=
        length_mapInsert_new s.locals name name hfree
      have hinv1 : ScopeInv ⟨mapInsert s.locals name name⟩ used := by
        intro k hk
        by_cases hkn : k = name
        · right
          exact ⟨s.locals.length + 1, by omega, by simp only [hlen]; omega, hkn⟩
        · rw [lookupA_mapInsert_other s.locals name k name hkn] at hk
          rcases hinv k hk with hmem | ⟨m, h1, h2, hform⟩
          · left; exact hmem
          · right; exact ⟨m, h1, by simp only [hlen]; omega, hform⟩
      have hrest := ih ⟨mapInsert s.locals name name⟩ used hinv1 husedgood
        (by intro x hx; exact hgood x (by simp [regNames, hx]))
        (by simpa [regNames] using hnodup)
        (by intro x hx; exact hdisj x (by simp [regNames, hx]))
      simp only [runOps, hsym, expectedReturns]
      rw [hrest, hlen]

theorem expectedReturns_mem : ∀ (ops : List ScopeOp) (L : Nat) (r : String),
    r ∈ expectedReturns L ops →
    r ∈ regNames ops ∨ ∃ m, L < m ∧ r = "sym" ++ natRepr m := by
  intro ops
  induction ops with
  | nil => intro L r hr; simp [expectedReturns] at hr
  | cons op rest ih =>
    intro L r hr
    cases op with
    | reg n =>
      simp only [expectedReturns, List.mem_cons] at hr
      rcases hr with hr | hr
      · left; simp [regNames, hr]
      · rcases ih (L + 1) r hr with hmem | ⟨m, hm, hform⟩
        · left; simp [regNames, hmem]
        · right; exact ⟨m, by omega, hform⟩
    | sym =>
      simp only [expectedReturns, List.mem_cons] at hr
      rcases hr with hr | hr
      · right; exact ⟨L + 1, by omega, hr⟩
      · rcases ih (L + 1) r hr with hmem | ⟨m, hm, hform⟩
        · left; simpa [regNames] using hmem
        · right; exact ⟨m, by omega, hform⟩

theorem expectedReturns_nodup : ∀ (ops : List ScopeOp) (L : Nat),
    (∀ n ∈ regNames ops, goodName n = true) →
    (regNames ops).Nodup →
    (expectedReturns L ops).Nodup := by
  intro ops
  induction ops with
  | nil => intro L _ _; simp [expectedReturns]
  | cons op rest ih =>
    intro L hgood hnodup
    cases op with
    | reg n =>
      simp only [expectedReturns, List.nodup_cons]
      constructor
      · intro hmem
        rcases expectedReturns_mem rest (L + 1) n hmem with hmem2 | ⟨m, _, hform⟩
        · have := hnodup
          simp only [regNames, List.nodup_cons] at this
          exact this.1 hmem2
        · have hng := hgood n (by simp [regNames])
          simp only [goodName, Bool.and_eq_true] at hng
          exact ne_sym_append hng.2 (natRepr m) hform
      · exact ih (L + 1) (by intro x hx; exact hgood x (by simp [regNames, hx]))
          (by
            have := hnodup
            simp only [regNames, List.nodup_cons] at this
            exact this.2)
    | sym =>
      simp only [expectedReturns, List.nodup_cons]
      constructor
      · intro hmem
        rcases expectedReturns_mem rest (L + 1) _ hmem with hmem2 | ⟨m, hm, hform⟩
        · have hng := hgood _ (by simpa [regNames] using hmem2)
          simp only [goodName, Bool.and_eq_true] at hng
          exact ne_sym_append hng.2 (natRepr (L + 1)) rfl
        · have := append_natRepr_injective hform
          omega
      · exact ih (L + 1) (by intro x hx; exact hgood x (by simpa [regNames] using hx))
          (by simpa [regNames] using hnodup)

/-! Determinism infrastructure: two scopes that represent the same map
(equal `get` on every key, equal `len`) — e.g. two hash maps holding the
same entries in different internal orders — are indistinguishable to every
compile function, which therefore emits byte-identical text. -/

/-- Two association lists representing the same `HashMap` contents. -/
def mapEquiv (m1 m2 : List (String × String)) : Prop :=
  (∀ k, lookupA m1 k = lookupA m2 k) ∧ m1.length = m2.length

theorem mapEquiv_insert {m1 m2 : List (String × String)} (h : mapEquiv m1 m2)
    (k v : String) : mapEquiv (mapInsert m1 k v) (mapInsert m2 k v) := by
  constructor
  · intro k2
    by_cases hk : k2 = k
    · rw [hk, lookupA_mapInsert_self, lookupA_mapInsert_self]
    · rw [lookupA_mapInsert_other m1 k k2 v hk, lookupA_mapInsert_other m2 k k2 v hk]
      exact h.1 k2
  · cases hmem : lookupA m1 k with
    | none =>
      rw [length_mapInsert_new m1 k v hmem, length_mapInsert_new m2 k v (by rw [← h.1 k]; exact hmem)]
      rw [h.2]
    | some v2 =>
      rw [length_mapInsert_mem m1 k v (by simp [hmem]),
        length_mapInsert_mem m2 k v (by rw [← h.1 k]; simp [hmem])]
      exact h.2

/-- Relation between two x86 compile results produced from `mapEquiv`
scopes: identical outcome, with equivalent final scopes on success. -/
def x86ResRel (r1 r2 : X86.Res) : Prop :=
  match r1, r2 with
  | .error e1, .error e2 => e1 = e2
  | .ok (b1, s1), .ok (b2, s2) => b1 = b2 ∧ mapEquiv s1 s2
  | _, _ => False

theorem x86ResRel_elim {r1 r2 : X86.Res} (h : x86ResRel r1 r2) {C : Prop}
    (he : ∀ e, r1 = .error e → r2 = .error e → C)
    (hk : ∀ b s1 s2, r1 = .ok (b, s1) → r2 = .ok (b, s2) → mapEquiv s1 s2 → C) : C := by
  match r1, r2, h with
  | .error e1, .error e2, h => exact he e1 rfl (by rw [h])
  | .ok (b1, s1), .ok (b2, s2), h => exact hk b1 s1 s2 rfl (by rw [h.1]) h.2

theorem x86_congr_all : ∀ fuel : Nat,
    (∀ e dest s1 s2 buf, mapEquiv s1 s2 →
      x86ResRel (X86.compile_expression fuel e dest s1 buf)
        (X86.compile_expression fuel e dest s2 buf)) ∧
    (∀ f args dest s1 s2 buf, mapEquiv s1 s2 →
      x86ResRel (X86.compile_call fuel f args dest s1 buf)
        (X86.compile_call fuel f args dest s2 buf)) ∧
    (∀ args i s1 s2 buf, mapEquiv s1 s2 →
      x86ResRel (X86.compile_args fuel args i s1 buf)
        (X86.compile_args fuel args i s2 buf)) ∧
    (∀ args dest s1 s2 buf, mapEquiv s1 s2 →
      x86ResRel (X86.compile_define fuel args dest s1 buf)
        (X86.compile_define fuel args dest s2 buf)) ∧
    (∀ args dest s1 s2 buf, mapEquiv s1 s2 →
      x86ResRel (X86.compile_module fuel args dest s1 buf)
        (X86.compile_module fuel args dest s2 buf)) ∧
    (∀ args s1 s2 buf, mapEquiv s1 s2 →
      x86ResRel (X86.compile_module_items fuel args s1 buf)
        (X86.compile_module_items fuel args s2 buf)) := by
  intro fuel
  induction fuel with
  | zero =>
    refine ⟨?_, ?_, ?_, ?_, ?_, ?_⟩ <;>
      (intros; simp only [X86.compile_expression, X86.compile_call, X86.compile_args,
        X86.compile_define, X86.compile_module, X86.compile_module_items, x86ResRel])
  | succ fuel ih =>
    obtain ⟨ihE, ihC, ihA, ihD, ihM, ihI⟩ := ih
    have stepE : ∀ e dest s1 s2 buf, mapEquiv s1 s2 →
        x86ResRel (X86.compile_expression (fuel + 1) e dest s1 buf)
          (X86.compile_expression (fuel + 1) e dest s2 buf) := by
      intro e dest s1 s2 buf h
      cases e with
      | list vec =>
        simp only [X86.compile_expression]
        cases X86.split_function (.list vec) with
        | error er => simp [x86ResRel]
        | ok p => exact ihC p.1 p.2 dest s1 s2 buf h
      | symbol sym =>
        simp only [X86.compile_expression]
        rw [h.1 sym]
        cases lookupA s2 sym with
        | none => simp [x86ResRel]
        | some name =>
          cases dest with
          | none => simp [x86ResRel]
          | some d => exact ⟨rfl, h⟩
      | integer int =>
        simp only [X86.compile_expression]
        cases dest with
        | none => simp [x86ResRel]
        | some d => exact ⟨rfl, h⟩
      | float => simp [X86.compile_expression, x86ResRel]
      | boolean b => simp [X86.compile_expression, x86ResRel]
    have stepA : ∀ args i s1 s2 buf, mapEquiv s1 s2 →
        x86ResRel (X86.compile_args (fuel + 1) args i s1 buf)
          (X86.compile_args (fuel + 1) args i s2 buf) := by
      intro args i s1 s2 buf h
      cases args with
      | nil => exact ⟨rfl, h⟩
      | cons arg rest =>
        simp only [X86.compile_args]
        cases X86.PARAM_REGISTERS[i]? with
        | none => simp [x86ResRel]
        | some r =>
          dsimp only
          refine x86ResRel_elim (ihE arg (some r) s1 s2 buf h) ?_ ?_
          · intro e h1 h2; rw [h1, h2]; rfl
          · intro b t1 t2 h1 h2 ht
            rw [h1, h2]
            exact ihA rest (i + 1) t1 t2 b ht
    have stepD : ∀ args dest s1 s2 buf, mapEquiv s1 s2 →
        x86ResRel (X86.compile_define (fuel + 1) args dest s1 buf)
          (X86.compile_define (fuel + 1) args dest s2 buf) := by
      intro args dest s1 s2 buf h
      simp only [X86.compile_define]
      cases X86.split_def_expression args with
      | error er => simp [x86ResRel]
      | ok t =>
        obtain ⟨name, params, body⟩ := t
        dsimp only
        have hparams : ∀ ps i c1 c2 b, mapEquiv c1 c2 →
            x86ResRel (X86.compile_def_params ps i c1 b)
              (X86.compile_def_params ps i c2 b) := by
          intro ps
          induction ps with
          | nil => intro i c1 c2 b hc; exact ⟨rfl, hc⟩
          | cons p rest ihp =>
            intro i c1 c2 b hc
            cases p with
            | symbol pn =>
              simp only [X86.compile_def_params]
              cases X86.PARAM_REGISTERS[i]? with
              | none => simp [x86ResRel]
              | some reg =>
                cases X86.LOCAL_REGISTERS[i]? with
                | none => simp [x86ResRel]
                | some loc =>
                  dsimp only
                  exact ihp (i + 1) _ _ _ (mapEquiv_insert hc pn reg)
            | list l => simp [X86.compile_def_params, x86ResRel]
            | integer n => simp [X86.compile_def_params, x86ResRel]
            | float => simp [X86.compile_def_params, x86ResRel]
            | boolean bb => simp [X86.compile_def_params, x86ResRel]
        refine x86ResRel_elim (hparams params 0 s1 s2 (emit buf 0 (name ++ ":")) h) ?_ ?_
        · intro e h1 h2; rw [h1, h2]; rfl
        · intro b c1 c2 h1 h2 hc
          rw [h1, h2]
          dsimp only
          refine x86ResRel_elim (ihE body (some ("rax")) c1 c2 b hc) ?_ ?_
          · intro e h3 h4; rw [h3, h4]; rfl
          · intro b2 d1 d2 h3 h4 _
            rw [h3, h4]
            dsimp only
            cases X86.pop_local_registers params.length b2 with
            | error e2 => rfl
            | ok b3 => exact ⟨rfl, h⟩
    have stepM : ∀ args s1 s2 buf, mapEquiv s1 s2 →
        x86ResRel (X86.compile_module_items (fuel + 1) args s1 buf)
          (X86.compile_module_items (fuel + 1) args s2 buf) := by
      intro args s1 s2 buf h
      cases args with
      | nil => exact ⟨rfl, h⟩
      | cons e rest =>
        simp only [X86.compile_module_items]
        refine x86ResRel_elim (ihE e (some ("rax")) s1 s2 buf h) ?_ ?_
        · intro er h1 h2; rw [h1, h2]; rfl
        · intro b t1 t2 h1 h2 ht
          rw [h1, h2]
          dsimp only
          exact ihI rest t1 t2 b ht
    have stepMod : ∀ args dest s1 s2 buf, mapEquiv s1 s2 →
        x86ResRel (X86.compile_module (fuel + 1) args dest s1 buf)
          (X86.compile_module (fuel + 1) args dest s2 buf) := by
      intro args dest s1 s2 buf h
      simp only [X86.compile_module]
      refine x86ResRel_elim (ihI args s1 s2 buf h) ?_ ?_
      · intro e h1 h2; rw [h1, h2]; rfl
      · intro b t1 t2 h1 h2 ht
        rw [h1, h2]
        dsimp only
        cases dest with
        | none => exact ⟨rfl, ht⟩
        | some d =>
          by_cases hd : d = "rax"
          · simp only [hd, if_true]; exact ⟨rfl, ht⟩
          · simp only [hd, if_false]; exact ⟨rfl, ht⟩
    have stepC : ∀ f args dest s1 s2 buf, mapEquiv s1 s2 →
        x86ResRel (X86.compile_call (fuel + 1) f args dest s1 buf)
          (X86.compile_call (fuel + 1) f args dest s2 buf) := by
      intro f args dest s1 s2 buf h
      simp only [X86.compile_call]
      cases lookupA X86.primitive_functions f with
      | some prim =>
        cases prim with
        | pdef => exact ihD args dest s1 s2 buf h
        | pmodule => exact ihM args dest s1 s2 buf h
      | none =>
        cases X86.push_param_registers args.length 0 buf with
        | error e => rfl
        | ok buf1 =>
          dsimp only
          refine x86ResRel_elim (ihA args 0 s1 s2 buf1 h) ?_ ?_
          · intro e h1 h2; rw [h1, h2]; rfl
          · intro b t1 t2 h1 h2 ht
            rw [h1, h2]
            dsimp only
            cases X86.pop_param_registers args.length (emit b 1 _) with
            | error e => rfl
            | ok buf4 =>
              dsimp only
              cases dest with
              | none => exact ⟨rfl, ht⟩
              | some d => exact ⟨rfl, ht⟩
    exact ⟨stepE, stepC, stepA, stepD, stepMod, stepM⟩

/-- Two LLVM scopes representing the same map. -/
def llvmScopeEquiv (t1 t2 : LLVM.Scope) : Prop := mapEquiv t1.locals t2.locals

/-- Relation between two LLVM compile results from `llvmScopeEquiv` scopes. -/
def llvmResRel (r1 r2 : LLVM.Res) : Prop :=
  match r1, r2 with
  | .error e1, .error e2 => e1 = e2
  | .ok (b1, t1), .ok (b2, t2) => b1 = b2 ∧ llvmScopeEquiv t1 t2
  | _, _ => False

/-- Relation between two `compile_call_args` results. -/
def llvmArgsRel (r1 r2 : Except (Err × Buf) (List String × Buf × LLVM.Scope)) : Prop :=
  match r1, r2 with
  | .error e1, .error e2 => e1 = e2
  | .ok (l1, b1, t1), .ok (l2, b2, t2) => l1 = l2 ∧ b1 = b2 ∧ llvmScopeEquiv t1 t2
  | _, _ => False

theorem llvmResRel_elim {r1 r2 : LLVM.Res} (h : llvmResRel r1 r2) {C : Prop}
    (he : ∀ e, r1 = .error e → r2 = .error e → C)
    (hk : ∀ b t1 t2, r1 = .ok (b, t1) → r2 = .ok (b, t2) → llvmScopeEquiv t1 t2 → C) : C := by
  match r1, r2, h with
  | .error e1, .error e2, h => exact he e1 rfl (by rw [h])
  | .ok (b1, t1), .ok (b2, t2), h => exact hk b1 t1 t2 rfl (by rw [h.1]) h.2

theorem llvmArgsRel_elim {r1 r2 : Except (Err × Buf) (List String × Buf × LLVM.Scope)}
    (h : llvmArgsRel r1 r2) {C : Prop}
    (he : ∀ e, r1 = .error e → r2 = .error e → C)
    (hk : ∀ l b t1 t2, r1 = .ok (l, b, t1) → r2 = .ok (l, b, t2) → llvmScopeEquiv t1 t2 → C) :
    C := by
  match r1, r2, h with
  | .error e1, .error e2, h => exact he e1 rfl (by rw [h])
  | .ok (l1, b1, t1), .ok (l2, b2, t2), h =>
    exact hk l1 b1 t1 t2 rfl (by rw [h.1, h.2.1]) h.2.2

theorem registerLoop_congr {m1 m2 : List (String × String)}
    (hl : ∀ k, lookupA m1 k = lookupA m2 k) (lcl : String) :
    ∀ (fuel : Nat) (copy : String) (n : Nat),
      LLVM.registerLoop m1 lcl copy n fuel = LLVM.registerLoop m2 lcl copy n fuel := by
  intro fuel
  induction fuel with
  | zero => intro copy n; rfl
  | succ fuel ih =>
    intro copy n
    simp only [LLVM.registerLoop, hl copy]
    split
    · exact ih (lcl ++ natRepr n) (n + 1)
    · rfl

theorem register_congr {t1 t2 : LLVM.Scope} (h : llvmScopeEquiv t1 t2) (lcl : String) :
    (t1.register lcl).1 = (t2.register lcl).1 ∧
      llvmScopeEquiv (t1.register lcl).2 (t2.register lcl).2 := by
  have hlen : t1.locals.length = t2.locals.length := h.2
  have hloop : LLVM.registerLoop t1.locals lcl (LLVM.safe_name lcl) 1 (t1.locals.length + 1)
      = LLVM.registerLoop t2.locals lcl (LLVM.safe_name lcl) 1 (t2.locals.length + 1) := by
    rw [hlen]
    exact registerLoop_congr h.1 lcl (t2.locals.length + 1) (LLVM.safe_name lcl) 1
  unfold LLVM.Scope.register
  constructor
  · simp only [hloop]
  · simp only [hloop]
    exact mapEquiv_insert h lcl _

theorem symbol_congr {t1 t2 : LLVM.Scope} (h : llvmScopeEquiv t1 t2) (pre : Option String) :
    (t1.symbol pre).1 = (t2.symbol pre).1 ∧
      llvmScopeEquiv (t1.symbol pre).2 (t2.symbol pre).2 := by
  unfold LLVM.Scope.symbol
  have hlen : t1.locals.length = t2.locals.length := h.2
  rw [hlen]
  exact register_congr h _

theorem register_params_congr : ∀ (params : List Expression) (t1 t2 : LLVM.Scope),
    llvmScopeEquiv t1 t2 →
    (match LLVM.register_params params t1, LLVM.register_params params t2 with
      | .error e1, .error e2 => e1 = e2
      | .ok (l1, c1), .ok (l2, c2) => l1 = l2 ∧ llvmScopeEquiv c1 c2
      | _, _ => False) := by
  intro params
  induction params with
  | nil => intro t1 t2 h; exact ⟨rfl, h⟩
  | cons p rest ih =>
    intro t1 t2 h
    cases p with
    | symbol pn =>
      simp only [LLVM.register_params]
      obtain ⟨hr, hs⟩ := register_congr h pn
      rw [hr]
      have := ih (t1.register pn).2 (t2.register pn).2 hs
      revert this
      cases LLVM.register_params rest (t1.register pn).2 with
      | error e1 =>
        cases LLVM.register_params rest (t2.register pn).2 with
        | error e2 => intro hrel; exact hrel
        | ok v => intro hrel; exact hrel.elim
      | ok v1 =>
        cases LLVM.register_params rest (t2.register pn).2 with
        | error e2 => intro hrel; exact hrel.elim
        | ok v2 =>
          obtain ⟨l1, c1⟩ := v1
          obtain ⟨l2, c2⟩ := v2
          intro hrel
          exact ⟨by rw [hrel.1], hrel.2⟩
    | list l => simp [LLVM.register_params]
    | integer n => simp [LLVM.register_params]
    | float => simp [LLVM.register_params]
    | boolean bb => simp [LLVM.register_params]

theorem llvm_congr_all : ∀ fuel : Nat,
    (∀ e dest t1 t2 buf, llvmScopeEquiv t1 t2 →
      llvmResRel (LLVM.compile_expression fuel e dest t1 buf)
        (LLVM.compile_expression fuel e dest t2 buf)) ∧
    (∀ f args dest t1 t2 buf, llvmScopeEquiv t1 t2 →
      llvmResRel (LLVM.compile_call fuel f args dest t1 buf)
        (LLVM.compile_call fuel f args dest t2 buf)) ∧
    (∀ args t1 t2 buf, llvmScopeEquiv t1 t2 →
      llvmArgsRel (LLVM.compile_call_args fuel args t1 buf)
        (LLVM.compile_call_args fuel args t2 buf)) ∧
    (∀ args dest t1 t2 buf, llvmScopeEquiv t1 t2 →
      llvmResRel (LLVM.compile_define fuel args dest t1 buf)
        (LLVM.compile_define fuel args dest t2 buf)) ∧
    (∀ args dest t1 t2 buf, llvmScopeEquiv t1 t2 →
      llvmResRel (LLVM.compile_module fuel args dest t1 buf)
        (LLVM.compile_module fuel args dest t2 buf)) ∧
    (∀ args t1 t2 buf, llvmScopeEquiv t1 t2 →
      llvmResRel (LLVM.compile_module_items fuel args t1 buf)
        (LLVM.compile_module_items fuel args t2 buf)) ∧
    (∀ op exprs dest t1 t2 buf, llvmScopeEquiv t1 t2 →
      llvmResRel (LLVM.compile_operation fuel op exprs dest t1 buf)
        (LLVM.compile_operation fuel op exprs dest t2 buf)) := by
  intro fuel
  induction fuel with
  | zero =>
    refine ⟨?_, ?_, ?_, ?_, ?_, ?_, ?_⟩ <;>
      (intros; simp only [LLVM.compile_expression, LLVM.compile_call,
        LLVM.compile_call_args, LLVM.compile_define, LLVM.compile_module,
        LLVM.compile_module_items, LLVM.compile_operation, llvmResRel, llvmArgsRel])
  | succ fuel ih =>
    obtain ⟨ihE, ihC, ihA, ihD, ihM, ihI, ihO⟩ := ih
    have stepE : ∀ e dest t1 t2 buf, llvmScopeEquiv t1 t2 →
        llvmResRel (LLVM.compile_expression (fuel + 1) e dest t1 buf)
          (LLVM.compile_expression (fuel + 1) e dest t2 buf) := by
      intro e dest t1 t2 buf h
      cases e with
      | list vec =>
        simp only [LLVM.compile_expression]
        cases LLVM.split_function (.list vec) with
        | error er => simp [llvmResRel]
        | ok p => exact ihC p.1 p.2 dest t1 t2 buf h
      | symbol sym =>
        simp only [LLVM.compile_expression, LLVM.Scope.get]
        rw [h.1 sym]
        cases lookupA t2.locals sym with
        | none => simp [llvmResRel]
        | some name =>
          cases dest with
          | none => simp [llvmResRel]
          | some d => exact ⟨rfl, h⟩
      | integer int =>
        simp only [LLVM.compile_expression]
        cases dest with
        | none => simp [llvmResRel]
        | some d => exact ⟨rfl, h⟩
      | float => simp [LLVM.compile_expression, llvmResRel]
      | boolean b => simp [LLVM.compile_expression, llvmResRel]
    have stepA : ∀ args t1 t2 buf, llvmScopeEquiv t1 t2 →
        llvmArgsRel (LLVM.compile_call_args (fuel + 1) args t1 buf)
          (LLVM.compile_call_args (fuel + 1) args t2 buf) := by
      intro args t1 t2 buf h
      cases args with
      | nil => exact ⟨rfl, rfl, h⟩
      | cons arg rest =>
        simp only [LLVM.compile_call_args]
        obtain ⟨hsymeq, hsymrel⟩ := symbol_congr h none
        rw [hsymeq]
        refine llvmResRel_elim (ihE arg (some ((t2.symbol none).1)) _ _ buf hsymrel) ?_ ?_
        · intro e h1 h2; rw [h1, h2]; rfl
        · intro b u1 u2 h1 h2 hu
          rw [h1, h2]
          dsimp only
          refine llvmArgsRel_elim (ihA rest u1 u2 b hu) ?_ ?_
          · intro e h3 h4; rw [h3, h4]; rfl
          · intro l b2 v1 v2 h3 h4 hv
            rw [h3, h4]
            exact ⟨rfl, rfl, hv⟩
    have stepD : ∀ args dest t1 t2 buf, llvmScopeEquiv t1 t2 →
        llvmResRel (LLVM.compile_define (fuel + 1) args dest t1 buf)
          (LLVM.compile_define (fuel + 1) args dest t2 buf) := by
      intro args dest t1 t2 buf h
      simp only [LLVM.compile_define]
      cases LLVM.split_def_expression args with
      | error er => simp [llvmResRel]
      | ok t =>
        obtain ⟨name, params, body⟩ := t
        dsimp only
        obtain ⟨hreq, hrrel⟩ := register_congr h name
        rw [hreq]
        have hpar := register_params_congr params ((t1.register name).2).copy
          ((t2.register name).2).copy hrrel
        revert hpar
        cases LLVM.register_params params ((t1.register name).2).copy with
        | error e1 =>
          cases LLVM.register_params params ((t2.register name).2).copy with
          | error e2 => intro hrel; rw [hrel]; rfl
          | ok v => intro hrel; exact hrel.elim
        | ok v1 =>
          cases LLVM.register_params params ((t2.register name).2).copy with
          | error e2 => intro hrel; exact hrel.elim
          | ok v2 =>
            obtain ⟨l1, c1⟩ := v1
            obtain ⟨l2, c2⟩ := v2
            intro hrel
            obtain ⟨hleq, hcrel⟩ := hrel
            rw [hleq]
            dsimp only
            obtain ⟨hsymeq, hsymrel⟩ := symbol_congr hcrel none
            rw [hsymeq]
            refine llvmResRel_elim (ihE body (some ((c2.symbol none).1))
              ((c1.symbol none).2) ((c2.symbol none).2)
              (emit buf 0 ("define i32 @" ++ (t2.register name).1 ++ "(" ++
                LLVM.join_params l2 ++ ") \x7b")) hsymrel) ?_ ?_
            · intro e h3 h4; rw [h3, h4]; rfl
            · intro b u1 u2 h3 h4 _
              rw [h3, h4]
              exact ⟨rfl, hrrel⟩
    have stepI : ∀ args t1 t2 buf, llvmScopeEquiv t1 t2 →
        llvmResRel (LLVM.compile_module_items (fuel + 1) args t1 buf)
          (LLVM.compile_module_items (fuel + 1) args t2 buf) := by
      intro args t1 t2 buf h
      cases args with
      | nil => exact ⟨rfl, h⟩
      | cons e rest =>
        simp only [LLVM.compile_module_items]
        refine llvmResRel_elim (ihE e none t1 t2 buf h) ?_ ?_
        · intro er h1 h2; rw [h1, h2]; rfl
        · intro b u1 u2 h1 h2 hu
          rw [h1, h2]
          dsimp only
          exact ihI rest u1 u2 b hu
    have stepMod : ∀ args dest t1 t2 buf, llvmScopeEquiv t1 t2 →
        llvmResRel (LLVM.compile_module (fuel + 1) args dest t1 buf)
          (LLVM.compile_module (fuel + 1) args dest t2 buf) := by
      intro args dest t1 t2 buf h
      simp only [LLVM.compile_module]
      exact ihI args t1 t2 buf h
    have stepO : ∀ op exprs dest t1 t2 buf, llvmScopeEquiv t1 t2 →
        llvmResRel (LLVM.compile_operation (fuel + 1) op exprs dest t1 buf)
          (LLVM.compile_operation (fuel + 1) op exprs dest t2 buf) := by
      intro op exprs dest t1 t2 buf h
      simp only [LLVM.compile_operation]
      cases (exprs[0]? : Option Expression) with
      | none => simp [llvmResRel]
      | some exp1 =>
        cases (exprs[1]? : Option Expression) with
        | none => simp [llvmResRel]
        | some exp2 =>
          dsimp only
          obtain ⟨hs1eq, hs1rel⟩ := symbol_congr h none
          rw [hs1eq]
          obtain ⟨hs2eq, hs2rel⟩ := symbol_congr hs1rel none
          rw [hs2eq]
          refine llvmResRel_elim (ihE exp1 (some ((t2.symbol none).1)) _ _ buf hs2rel) ?_ ?_
          · intro e h1 h2; rw [h1, h2]; rfl
          · intro b u1 u2 h1 h2 hu
            rw [h1, h2]
            dsimp only
            refine llvmResRel_elim
              (ihE exp2 (some (((t2.symbol none).2.symbol none).1)) u1 u2 b hu) ?_ ?_
            · intro e h3 h4; rw [h3, h4]; rfl
            · intro b2 v1 v2 h3 h4 hv
              rw [h3, h4]
              dsimp only
              cases dest with
              | none => rfl
              | some d => exact ⟨rfl, hv⟩
    have stepC : ∀ f args dest t1 t2 buf, llvmScopeEquiv t1 t2 →
        llvmResRel (LLVM.compile_call (fuel + 1) f args dest t1 buf)
          (LLVM.compile_call (fuel + 1) f args dest t2 buf) := by
      intro f args dest t1 t2 buf h
      simp only [LLVM.compile_call]
      cases lookupA LLVM.primitive_functions f with
      | some prim =>
        cases prim with
        | pdef => exact ihD args dest t1 t2 buf h
        | pmodule => exact ihM args dest t1 t2 buf h
        | poperation op => exact ihO op args dest t1 t2 buf h
      | none =>
        simp only [LLVM.Scope.get]
        rw [h.1 f]
        cases lookupA t2.locals f with
        | none => simp [llvmResRel]
        | some valid =>
          dsimp only
          refine llvmArgsRel_elim (ihA args t1 t2 buf h) ?_ ?_
          · intro e h1 h2; rw [h1, h2]; rfl
          · intro l b u1 u2 h1 h2 hu
            rw [h1, h2]
            dsimp only
            cases dest with
            | none => rfl
            | some d => exact ⟨rfl, hu⟩
    exact ⟨stepE, stepC, stepA, stepD, stepMod, stepI, stepO⟩

/-! Result extractors and the concrete programs used by the claim theorems. -/

/-- Success test for an `Except` result. -/
def isOkE {ε α : Type} : Except ε α → Bool
  | .ok _ => true
  | .error _ => false

/-- Buffer of a top-level compile result (on error: the buffer at panic). -/
def bufOf : Except (Err × Buf) Buf → Buf
  | .ok b => b
  | .error (_, b) => b

/-- Buffer of an x86 lowering result. -/
def x86ResBuf : X86.Res → Buf
  | .ok (b, _) => b
  | .error (_, b) => b

/-- Final scope of an x86 lowering result (dummy on error). -/
def x86ResScope : X86.Res → X86.Scope
  | .ok (_, s) => s
  | .error _ => []

/-- Buffer of an LLVM lowering result. -/
def llvmResBuf : LLVM.Res → Buf
  | .ok (b, _) => b
  | .error (_, b) => b

/-- Final scope of an LLVM lowering result (dummy on error). -/
def llvmResScope : LLVM.Res → LLVM.Scope
  | .ok (_, s) => s
  | .error _ => LLVM.Scope.new

open Expression in
/-- `(module (def main () (- 10 4)))`. -/
def progSub : Expression :=
  list [symbol ("module"),
    list [symbol ("def"), symbol ("main"), list [],
      list [symbol ("-"), integer 10, integer 4]]]

open Expression in
/-- `(module (def f (a b) (+ a b)) (def main () (f 7)))`: a 2-parameter
function called with a single argument. -/
def progOneArg : Expression :=
  list [symbol ("module"),
    list [symbol ("def"), symbol ("f"), list [symbol ("a"), symbol ("b")],
      list [symbol ("+"), symbol ("a"), symbol ("b")]],
    list [symbol ("def"), symbol ("main"), list [],
      list [symbol ("f"), integer 7]]]

open Expression in
/-- `(module (def f (a b) (+ a b)) (def main () (f 1 2 3)))`: a 2-parameter
function called with three arguments. -/
def progThreeArgs : Expression :=
  list [symbol ("module"),
    list [symbol ("def"), symbol ("f"), list [symbol ("a"), symbol ("b")],
      list [symbol ("+"), symbol ("a"), symbol ("b")]],
    list [symbol ("def"), symbol ("main"), list [],
      list [symbol ("f"), integer 1, integer 2, integer 3]]]

open Expression in
/-- `(module (def main () 42))`. -/
def prog42 : Expression :=
  list [symbol ("module"),
    list [symbol ("def"), symbol ("main"), list [], list [symbol ("module"), integer 42]]]

open Expression in
/-- `(module (def main () (+ 1 2)))`. -/
def progMainAdd : Expression :=
  list [symbol ("module"),
    list [symbol ("def"), symbol ("main"), list [],
      list [symbol ("+"), integer 1, integer 2]]]

/-- CLAIM C1 (counterexample). The claim says a call to an operator that is
neither a primitive nor bound in scope fails fatally in both backends; the
x86 backend instead performs no scope lookup at all: lowering `(foo)` with
an empty scope succeeds and emits `call foo`. -/
theorem c1_counterexample :
    lookupA ([] : X86.Scope) ("foo") = none ∧
    lookupA X86.primitive_functions ("foo") = none ∧
    X86.compile_call 5 ("foo") [] none [] [] = .ok (["\tcall foo\n"], []) := by
  refine ⟨rfl, by decide, rfl⟩

/-- CLAIM C1 (amended). In the LLVM backend a call whose operator is not a
primitive key and not bound in scope fails fatally with an
undefined-function error before anything is emitted (the buffer in the
error is exactly the entry buffer); the x86 backend performs no scope
lookup: a nullary call to any non-primitive operator succeeds and emits a
`call` instruction naming the operator itself (after builtin translation). -/
theorem c1_undefined_function :
    (∀ (fuel : Nat) (f : String) (args : List Expression) (dest : Option String)
      (scope : LLVM.Scope) (buf : Buf),
      lookupA LLVM.primitive_functions f = none →
      LLVM.Scope.get scope f = none →
      LLVM.compile_call (fuel + 1) f args dest scope buf =
        .error (.undefinedFunction f, buf)) ∧
    (∀ (fuel : Nat) (f : String) (dest : Option String) (scope : X86.Scope) (buf : Buf),
      lookupA X86.primitive_functions f = none →
      X86.compile_call (fuel + 2) f [] dest scope buf =
        .ok ((match dest with
          | some d => emit (emit buf 1 ("call " ++ (lookupA X86.builtin_functions f).getD f))
              1 ("mov " ++ d ++ ", rax")
          | none => emit buf 1 ("call " ++ (lookupA X86.builtin_functions f).getD f)), scope)) := by
  constructor
  · intro fuel f args dest scope buf hprim hscope
    simp only [LLVM.compile_call, hprim, hscope]
  · intro fuel f dest scope buf hprim
    simp only [X86.compile_call, hprim, X86.push_param_registers, X86.compile_args,
      X86.pop_param_registers, List.length_nil]
    cases dest with
    | none => rfl
    | some d => rfl

/-- CLAIM C1 (witness). -/
theorem c1_undefined_function_witness :
    LLVM.compile_call 4 ("g") [] none LLVM.Scope.new [] =
      .error (.undefinedFunction ("g"), []) ∧
    X86.compile_call 4 ("foo") [] none [] [] = .ok (["\tcall foo\n"], []) := by
  constructor
  · exact c1_undefined_function.1 3 ("g") [] none LLVM.Scope.new [] (by decide) rfl
  · exact c1_undefined_function.2 2 ("foo") none [] [] (by decide)

/-- CLAIM C2 (counterexample). The claim says both primitive tables have
exactly the keys `def`, `module`, `+`, `-`, `*`; the x86 table does not
contain `+`. -/
theorem c2_counterexample :
    ¬ (∀ k : String, (lookupA X86.primitive_functions k).isSome = true ↔
        k ∈ (["def", "module", "+", "-", "*"] : List String)) := by
  intro hcl
  have := (hcl ("+")).mpr (by decide)
  rw [show lookupA X86.primitive_functions ("+") = none from by decide] at this
  exact absurd this (by decide)

/-- CLAIM C2 (amended). The LLVM primitive table's keys are exactly `def`,
`module`, `+`, `-`, `*`; the x86 table's keys are exactly `def` and
`module`, with `+` handled instead as a builtin call target (`plus`) and
`-`, `*` absent everywhere. Dispatching any table key transfers control to
its handler with the raw, unevaluated argument expressions. -/
theorem c2_dispatch_tables :
    (∀ k : String, (lookupA LLVM.primitive_functions k).isSome = true ↔
      k ∈ (["def", "module", "+", "-", "*"] : List String)) ∧
    (∀ k : String, (lookupA X86.primitive_functions k).isSome = true ↔
      k ∈ (["def", "module"] : List String)) ∧
    (∀ fuel args dest scope buf,
      LLVM.compile_call (fuel + 1) ("def") args dest scope buf =
        LLVM.compile_define fuel args dest scope buf ∧
      LLVM.compile_call (fuel + 1) ("module") args dest scope buf =
        LLVM.compile_module fuel args dest scope buf ∧
      LLVM.compile_call (fuel + 1) ("+") args dest scope buf =
        LLVM.compile_operation fuel ("add") args dest scope buf ∧
      LLVM.compile_call (fuel + 1) ("-") args dest scope buf =
        LLVM.compile_operation fuel ("sub") args dest scope buf ∧
      LLVM.compile_call (fuel + 1) ("*") args dest scope buf =
        LLVM.compile_operation fuel ("mul") args dest scope buf) ∧
    (∀ fuel args dest scope buf,
      X86.compile_call (fuel + 1) ("def") args dest scope buf =
        X86.compile_define fuel args dest scope buf ∧
      X86.compile_call (fuel + 1) ("module") args dest scope buf =
        X86.compile_module fuel args dest scope buf) ∧
    lookupA X86.builtin_functions ("+") = some ("plus") := by
  refine ⟨?_, ?_, ?_, ?_, rfl⟩
  · intro k
    simp only [lookupA, LLVM.primitive_functions, List.mem_cons, List.not_mem_nil, or_false]
    split_ifs with h1 h2 h3 h4 h5 <;> simp_all [eq_comm]
  · intro k
    simp only [lookupA, X86.primitive_functions, List.mem_cons, List.not_mem_nil, or_false]
    split_ifs with h1 h2 <;> simp_all [eq_comm]
  · intro fuel args dest scope buf
    exact ⟨rfl, rfl, rfl, rfl, rfl⟩
  · intro fuel args dest scope buf
    exact ⟨rfl, rfl⟩

/-- CLAIM C3 (counterexample). Returned target names are not pairwise
distinct: `register("a-b")` then `register("a_b")` both return `a_b`
(the collision loop checks keys, not returned values), and with `symbol`
interleaved `register("sym2")` twice followed by `symbol()` returns
`sym21` twice. -/
theorem c3_counterexample :
    (LLVM.Scope.new.register ("a-b")).1 = "a_b" ∧
    (((LLVM.Scope.new.register ("a-b")).2).register ("a_b")).1 = "a_b" ∧
    (runOps [.reg ("sym2"), .reg ("sym2"), .sym] LLVM.Scope.new).1 =
      ["sym2", "sym21", "sym21"] := by
  refine ⟨rfl, rfl, rfl⟩

/-- CLAIM C3 (amended). Provided every explicitly registered source name
contains no `-`, does not start with `sym`, and no name is registered
twice, any interleaving of `Scope::register` and `Scope::symbol` calls on
one lineage returns pairwise-distinct target names; without these provisos
the returned names can collide (see the counterexample). -/
theorem c3_scope_uniqueness :
    ∀ ops : List ScopeOp,
      (∀ n ∈ regNames ops, goodName n = true) →
      (regNames ops).Nodup →
      ((runOps ops LLVM.Scope.new).1).Nodup := by
  intro ops hgood hnodup
  rw [runOps_returns ops LLVM.Scope.new []
    (by intro k hk; simp [lookupA, LLVM.Scope.new] at hk)
    (by intro n hn; simp at hn)
    hgood hnodup
    (by intro n hn hmem; simp at hmem)]
  exact expectedReturns_nodup ops _ hgood hnodup

/-- CLAIM C3 (witness). -/
theorem c3_scope_uniqueness_witness :
    (∀ n ∈ regNames [.reg ("add"), .sym, .reg ("mul2"), .sym], goodName n = true) ∧
    (regNames [.reg ("add"), .sym, .reg ("mul2"), .sym]).Nodup ∧
    ((runOps [.reg ("add"), .sym, .reg ("mul2"), .sym] LLVM.Scope.new).1).Nodup := by
  refine ⟨by decide, by decide, ?_⟩
  exact c3_scope_uniqueness [.reg ("add"), .sym, .reg ("mul2"), .sym] (by decide) (by decide)

/-- CLAIM C4 (counterexample). The claim says both backends rename a
user-level `main`; the LLVM backend does not: its `split_def_expression`
keeps the name `main`, and the generated text defines `@main` itself with
no renamed entry scaffold. -/
theorem c4_counterexample :
    LLVM.split_def_expression
      [Expression.symbol ("main"), Expression.list [], Expression.list []] =
      .ok ("main", [], Expression.list []) ∧
    "define i32 @main() \x7b\n" ∈ bufOf (LLVM.compile progMainAdd) := by
  refine ⟨rfl, by decide⟩

/-- CLAIM C4 (amended). The x86 backend renames `main` to `program_main`
and every successful compilation ends with the fixed entry scaffold
(`main:` / `call program_main` / `mov rdi, rax` / `mov rax, 60` /
`syscall`) that converts the renamed function's return value into the
process exit status; the LLVM backend keeps the name `main` unchanged. -/
theorem c4_main_rename :
    (∀ (ps bs : List Expression),
      X86.split_def_expression
        [Expression.symbol ("main"), Expression.list ps, Expression.list bs] =
        .ok ("program_main", ps, Expression.list bs)) ∧
    (∀ (ast : Expression) (out : Buf),
      X86.compile ast = .ok out → ∃ pre, out = pre ++ X86.scaffoldLines) ∧
    ("main:\n" ∈ X86.scaffoldLines ∧ "\tcall program_main\n" ∈ X86.scaffoldLines ∧
      "\tmov rdi, rax\n" ∈ X86.scaffoldLines ∧ "\tmov rax, 60\n" ∈ X86.scaffoldLines ∧
      "\tsyscall\n" ∈ X86.scaffoldLines) ∧
    (∀ (ps bs : List Expression),
      LLVM.split_def_expression
        [Expression.symbol ("main"), Expression.list ps, Expression.list bs] =
        .ok ("main", ps, Expression.list bs)) := by
  refine ⟨fun ps bs => rfl, ?_, by decide, fun ps bs => rfl⟩
  intro ast out h
  unfold X86.compile at h
  revert h
  cases X86.compile_expression (compileFuel ast) ast none [] X86.headerLines with
  | error e => intro h; exact Except.noConfusion h
  | ok p =>
    intro h
    injection h with hh
    exact ⟨p.1, hh.symm⟩

/-- CLAIM C4 (witness). -/
theorem c4_main_rename_witness :
    ∃ pre, bufOf (X86.compile prog42) = pre ++ X86.scaffoldLines := by
  exact c4_main_rename.2.1 prog42 (bufOf (X86.compile prog42)) rfl

/-- CLAIM C5 (counterexample). The claim says calling a 2-parameter
function with 1 argument fails fast in both backends; both backends
compile `(module (def f (a b) (+ a b)) (def main () (f 7)))` without any
error. -/
theorem c5_counterexample :
    isOkE (LLVM.compile progOneArg) = true ∧ isOkE (X86.compile progOneArg) = true := by
  refine ⟨rfl, rfl⟩

/-- CLAIM C5 (amended). Neither backend checks arity at lowering time: a
call to the 2-parameter function `f` with 1 or with 3 arguments compiles
successfully in both backends, and the emitted call carries exactly the
supplied arguments — one operand (`@f(i32 %sym5)`, one `mov rdi`) in the
1-argument program, three operands in the 3-argument program — with no
truncation or padding; a mismatch can only surface in later toolchain
stages. -/
theorem c5_no_arity_check :
    (isOkE (LLVM.compile progOneArg) = true ∧
      "\t%sym4 = call i32 @f(i32 %sym5)\n" ∈ bufOf (LLVM.compile progOneArg)) ∧
    (isOkE (X86.compile progOneArg) = true ∧
      "\tmov rdi, 7\n" ∈ bufOf (X86.compile progOneArg) ∧
      "\tcall f\n" ∈ bufOf (X86.compile progOneArg)) ∧
    (isOkE (LLVM.compile progThreeArgs) = true ∧
      "\t%sym4 = call i32 @f(i32 %sym5, i32 %sym6, i32 %sym7)\n" ∈
        bufOf (LLVM.compile progThreeArgs)) ∧
    (isOkE (X86.compile progThreeArgs) = true ∧
      "\tmov rdx, 3\n" ∈ bufOf (X86.compile progThreeArgs) ∧
      "\tcall f\n" ∈ bufOf (X86.compile progThreeArgs)) := by
  refine ⟨⟨rfl, by decide⟩, ⟨rfl, by decide, by decide⟩, ⟨rfl, by decide⟩,
    ⟨rfl, by decide, by decide⟩⟩

/-- Enclosing-scope effect of `X86::compile_define`: on success the
enclosing scope is returned exactly as it was — this backend never
registers the function name. -/
theorem x86_compile_define_scope {fuel : Nat} {args : List Expression}
    {dest : Option String} {scope : X86.Scope} {buf buf2 : Buf} {scope2 : X86.Scope}
    (h : X86.compile_define (fuel + 1) args dest scope buf = .ok (buf2, scope2)) :
    scope2 = scope := by
  simp only [X86.compile_define] at h
  repeat' split at h
  all_goals first
    | exact Except.noConfusion h
    | (injection h with hh; injection hh with h1 h2; exact h2.symm)

/-- Enclosing-scope effect of `LLVM::compile_define`: on success the
enclosing scope is exactly the input scope after registering the
function's (sanitized) name; the child scope is discarded. -/
theorem llvm_compile_define_scope {fuel : Nat} {args : List Expression}
    {dest : Option String} {scope : LLVM.Scope} {buf buf2 : Buf} {scope2 : LLVM.Scope}
    {name : String} {params : List Expression} {body : Expression}
    (hsplit : LLVM.split_def_expression args = .ok (name, params, body))
    (h : LLVM.compile_define (fuel + 1) args dest scope buf = .ok (buf2, scope2)) :
    scope2 = (scope.register name).2 := by
  simp only [LLVM.compile_define, hsplit] at h
  repeat' split at h
  all_goals first
    | exact Except.noConfusion h
    | (injection h with hh; injection hh with h1 h2; exact h2.symm)

/-- The body list of `(def f () (+ 1 2))`. -/
def defFAdd : List Expression :=
  [Expression.symbol ("f"), Expression.list [],
   Expression.list [Expression.symbol ("+"), Expression.integer 1, Expression.integer 2]]

/-- The body list of `(def g () (+ 1 2))`. -/
def defGAdd : List Expression :=
  [Expression.symbol ("g"), Expression.list [],
   Expression.list [Expression.symbol ("+"), Expression.integer 1, Expression.integer 2]]

/-- CLAIM C6 (counterexample). The claim says both backends register NAME
in the enclosing scope so that a later lookup succeeds; the x86 backend
registers nothing: lowering `(def f () (+ 1 2))` from an empty scope
succeeds yet leaves the scope empty, and the lookup of `f` fails. -/
theorem c6_counterexample :
    isOkE (X86.compile_define 9 defFAdd none [] []) = true ∧
    x86ResScope (X86.compile_define 9 defFAdd none [] []) = [] ∧
    lookupA (x86ResScope (X86.compile_define 9 defFAdd none [] [])) ("f") = none := by
  refine ⟨rfl, rfl, rfl⟩

/-- CLAIM C6 (amended). Only the LLVM backend registers the function name
in the enclosing scope: after a successful `compile_define`, looking up the
(sanitized) NAME in the scope the caller passed succeeds and yields the
function's target-level name. The x86 backend registers nothing — its
enclosing scope is returned unchanged and calls resolve at assembly time
through the raw label. -/
theorem c6_define_registers_name :
    (∀ (fuel : Nat) (args : List Expression) (dest : Option String) (scope : LLVM.Scope)
      (buf buf2 : Buf) (scope2 : LLVM.Scope) (name : String) (params : List Expression)
      (body : Expression),
      LLVM.split_def_expression args = .ok (name, params, body) →
      LLVM.compile_define (fuel + 1) args dest scope buf = .ok (buf2, scope2) →
      (scope2.get name).isSome = true) ∧
    (∀ (fuel : Nat) (args : List Expression) (dest : Option String) (scope : X86.Scope)
      (buf buf2 : Buf) (scope2 : X86.Scope),
      X86.compile_define (fuel + 1) args dest scope buf = .ok (buf2, scope2) →
      scope2 = scope) := by
  constructor
  · intro fuel args dest scope buf buf2 scope2 name params body hsplit h
    rw [llvm_compile_define_scope hsplit h]
    unfold LLVM.Scope.register LLVM.Scope.get
    rw [lookupA_mapInsert_self]
    rfl
  · intro fuel args dest scope buf buf2 scope2 h
    exact x86_compile_define_scope h

/-- CLAIM C6 (witness). -/
theorem c6_define_registers_name_witness :
    ((llvmResScope (LLVM.compile_define 9 defGAdd none LLVM.Scope.new [])).get ("g")).isSome
      = true ∧
    x86ResScope (X86.compile_define 9 defFAdd none [] []) = [] := by
  constructor
  · exact c6_define_registers_name.1 8 defGAdd none LLVM.Scope.new []
      (llvmResBuf (LLVM.compile_define 9 defGAdd none LLVM.Scope.new []))
      (llvmResScope (LLVM.compile_define 9 defGAdd none LLVM.Scope.new []))
      ("g") [] (Expression.list [Expression.symbol ("+"), Expression.integer 1,
        Expression.integer 2]) rfl rfl
  · exact c6_define_registers_name.2 8 defFAdd none [] []
      (x86ResBuf (X86.compile_define 9 defFAdd none [] []))
      (x86ResScope (X86.compile_define 9 defFAdd none [] [])) rfl

/-- CLAIM C7 (confirmed). Lowering a `Symbol` not bound in scope fails
fatally with an undefined-reference error in both backends, and the buffer
carried at the panic is exactly the buffer as it was when lowering of that
expression began: nothing was emitted for it. -/
theorem c7_undefined_symbol :
    (∀ (fuel : Nat) (sym : String) (dest : Option String) (scope : X86.Scope) (buf : Buf),
      lookupA scope sym = none →
      X86.compile_expression (fuel + 1) (.symbol sym) dest scope buf =
        .error (.undefinedVariable sym, buf)) ∧
    (∀ (fuel : Nat) (sym : String) (dest : Option String) (scope : LLVM.Scope) (buf : Buf),
      LLVM.Scope.get scope sym = none →
      LLVM.compile_expression (fuel + 1) (.symbol sym) dest scope buf =
        .error (.undefinedVariable sym, buf)) := by
  constructor
  · intro fuel sym dest scope buf h
    simp only [X86.compile_expression, h]
  · intro fuel sym dest scope buf h
    simp only [LLVM.compile_expression, h]

/-- CLAIM C7 (witness). -/
theorem c7_undefined_symbol_witness :
    X86.compile_expression 4 (.symbol ("missing-name")) (some ("rax")) [] ["x:\n"] =
      .error (.undefinedVariable ("missing-name"), ["x:\n"]) ∧
    LLVM.compile_expression 4 (.symbol ("missing-name")) (some ("sym1")) LLVM.Scope.new [] =
      .error (.undefinedVariable ("missing-name"), []) := by
  constructor
  · exact c7_undefined_symbol.1 3 ("missing-name") (some ("rax")) [] ["x:\n"] rfl
  · exact c7_undefined_symbol.2 3 ("missing-name") (some ("sym1")) LLVM.Scope.new [] rfl

/-- CLAIM C8 (confirmed). Names registered in the forked child scope of a
`def` lowering are invisible in the enclosing scope afterwards: on success
the x86 backend returns the enclosing scope unchanged, and the LLVM
backend returns exactly the enclosing scope plus the single registration
of the function's own name — every other key looks up as before. -/
theorem c8_scope_isolation :
    (∀ (fuel : Nat) (args : List Expression) (dest : Option String) (scope : X86.Scope)
      (buf buf2 : Buf) (scope2 : X86.Scope),
      X86.compile_define (fuel + 1) args dest scope buf = .ok (buf2, scope2) →
      scope2 = scope) ∧
    (∀ (fuel : Nat) (args : List Expression) (dest : Option String) (scope : LLVM.Scope)
      (buf buf2 : Buf) (scope2 : LLVM.Scope) (name : String) (params : List Expression)
      (body : Expression),
      LLVM.split_def_expression args = .ok (name, params, body) →
      LLVM.compile_define (fuel + 1) args dest scope buf = .ok (buf2, scope2) →
      scope2 = (scope.register name).2 ∧
        ∀ k, k ≠ name → scope2.get k = scope.get k) := by
  constructor
  · intro fuel args dest scope buf buf2 scope2 h
    exact x86_compile_define_scope h
  · intro fuel args dest scope buf buf2 scope2 name params body hsplit h
    have hs := llvm_compile_define_scope hsplit h
    refine ⟨hs, ?_⟩
    intro k hk
    rw [hs]
    unfold LLVM.Scope.register LLVM.Scope.get
    exact lookupA_mapInsert_other scope.locals name k _ hk

/-- CLAIM C8 (witness). -/
theorem c8_scope_isolation_witness :
    x86ResScope (X86.compile_define 9 defFAdd none [] []) = [] ∧
    (llvmResScope (LLVM.compile_define 9 defGAdd none LLVM.Scope.new [])).get ("a") =
      LLVM.Scope.new.get ("a") := by
  constructor
  · exact c8_scope_isolation.1 8 defFAdd none [] []
      (x86ResBuf (X86.compile_define 9 defFAdd none [] []))
      (x86ResScope (X86.compile_define 9 defFAdd none [] [])) rfl
  · exact (c8_scope_isolation.2 8 defGAdd none LLVM.Scope.new []
      (llvmResBuf (LLVM.compile_define 9 defGAdd none LLVM.Scope.new []))
      (llvmResScope (LLVM.compile_define 9 defGAdd none LLVM.Scope.new []))
      ("g") [] (Expression.list [Expression.symbol ("+"), Expression.integer 1,
        Expression.integer 2]) rfl rfl).2 ("a") (by decide)

/-- CLAIM C9 (code bug evaluated). On `(module (def main () (- 10 4)))`
the LLVM backend produces a complete module whose `@main` returns `10 - 4`
(process exit status 6), while the x86 backend — whose tables know neither
`-` nor `*` — lowers `-` as an ordinary call and emits `call -` to a label
that is defined nowhere in its output, so the assembly cannot be assembled
or linked and no executable (hence no exit status) exists; the two
backends cannot yield the same exit status on this module. -/
theorem c9_backend_divergence :
    LLVM.compile progSub = .ok
      ["define i32 @main() \x7b\n",
       "\t%sym4 = add i32 10, 0\n",
       "\t%sym5 = add i32 4, 0\n",
       "\t%sym3 = sub i32 %sym4, %sym5\n",
       "\tret i32 %sym3\n",
       "\x7d\n\n"] ∧
    isOkE (X86.compile progSub) = true ∧
    "\tcall -\n" ∈ bufOf (X86.compile progSub) ∧
    "-:\n" ∉ bufOf (X86.compile progSub) ∧
    lookupA X86.primitive_functions ("-") = none ∧
    lookupA X86.builtin_functions ("-") = none := by
  refine ⟨rfl, rfl, by decide, by decide, by decide, by decide⟩

/-- CLAIM C10 (confirmed). Compilation output depends only on the AST and
never on hash-map internal order: both backends' lowering functions, run
on two scope states that represent the same map (equal lookup on every
key and equal size — e.g. two hash maps holding the same entries in
different iteration orders), produce identical outcomes — byte-identical
buffers and equal errors — with the final scopes again equivalent. With
the fixed empty initial scope of `compile`, repeated runs on fresh
backend instances are therefore byte-identical (the embedded `compile` is
a pure function; the only run-to-run input is the scope representation,
which this theorem shows is unobservable). -/
theorem c10_determinism :
    (∀ (fuel : Nat) (e : Expression) (dest : Option String) (s1 s2 : X86.Scope) (buf : Buf),
      mapEquiv s1 s2 →
      x86ResRel (X86.compile_expression fuel e dest s1 buf)
        (X86.compile_expression fuel e dest s2 buf)) ∧
    (∀ (fuel : Nat) (e : Expression) (dest : Option String) (t1 t2 : LLVM.Scope) (buf : Buf),
      llvmScopeEquiv t1 t2 →
      llvmResRel (LLVM.compile_expression fuel e dest t1 buf)
        (LLVM.compile_expression fuel e dest t2 buf)) := by
  constructor
  · intro fuel; exact (x86_congr_all fuel).1
  · intro fuel; exact (llvm_congr_all fuel).1

/-- CLAIM C10 (witness). -/
theorem c10_determinism_witness :
    mapEquiv [("a", "rdi"), ("b", "rsi")] [("b", "rsi"), ("a", "rdi")] ∧
    x86ResRel
      (X86.compile_expression 3 (.symbol ("a")) (some ("rcx"))
        [("a", "rdi"), ("b", "rsi")] [])
      (X86.compile_expression 3 (.symbol ("a")) (some ("rcx"))
        [("b", "rsi"), ("a", "rdi")] []) := by
  have hequiv : mapEquiv [("a", "rdi"), ("b", "rsi")] [("b", "rsi"), ("a", "rdi")] := by
    constructor
    · intro k
      by_cases h1 : ("a" : String) = k
      · rw [← h1]; decide
      · by_cases h2 : ("b" : String) = k
        · rw [← h2]; decide
        · simp [lookupA, h1, h2]
    · rfl
  exact ⟨hequiv, c10_determinism.1 3 (.symbol ("a")) (some ("rcx"))
    [("a", "rdi"), ("b", "rsi")] [("b", "rsi"), ("a", "rdi")] [] hequiv⟩
